import Mathlib

/-!
Formal model of the `bricklayer` Web of Science citation-export helpers.

The repository snapshot contains only the driver notebook `demo.ipynb`,
which imports every helper (`wos_get_download_ranges`,
`aggregate_failed_records`, `save_log`, `wos_download_contractor`,
`validate_and_create_path`, `find_and_move_files`, `login_to_channel`,
`extract_content`, ...) from the external `bricklayer` package; the
package source itself is not part of the snapshot.  Each helper is
therefore modelled from the specification, with machine integers as
`Nat`, the file system and the browser as explicit state, and fallible
operations returning `Option` or `Except`.
-/

namespace Bricklayer

/-- Modelled from the spec: the number of export batches the Export Range
Planner produces for `total_count` records under a per-export `capacity`
limit, i.e. `total_count / capacity` rounded upwards.  The implementation
of `wos_get_download_ranges` is missing from the snapshot (it is only
imported by `demo.ipynb`). -/
def numRanges (total_count capacity : Nat) : Nat :=
  (total_count + capacity - 1) / capacity

/-- Modelled from the spec: `wos_get_download_ranges` partitions the
result set `[1, total_count]` into an ordered sequence of consecutive
`(start, end)` index ranges, each covering at most `capacity` records:
the `i`-th range (0-based) is `(i * capacity + 1, min ((i+1) * capacity)
total_count)`.  The implementation is missing from the snapshot. -/
def wos_get_download_ranges (total_count capacity : Nat) : List (Nat × Nat) :=
  (List.range (numRanges total_count capacity)).map
    (fun i => (i * capacity + 1, min ((i + 1) * capacity) total_count))

theorem lt_numRanges_iff {t c : Nat} (i : Nat) (hc : 0 < c) :
    i < numRanges t c ↔ i * c < t := by
  unfold numRanges
  rw [Nat.lt_iff_add_one_le, Nat.le_div_iff_mul_le hc, Nat.add_mul, one_mul]
  omega

theorem mem_wos_ranges {t c : Nat} {r : Nat × Nat} :
    r ∈ wos_get_download_ranges t c ↔
      ∃ i, i < numRanges t c ∧ (i * c + 1, min ((i + 1) * c) t) = r := by
  simp [wos_get_download_ranges, List.mem_map, List.mem_range]

theorem wos_ranges_length (t c : Nat) :
    (wos_get_download_ranges t c).length = numRanges t c := by
  simp [wos_get_download_ranges]

theorem wos_ranges_getElem (t c i : Nat)
    (h : i < (wos_get_download_ranges t c).length) :
    (wos_get_download_ranges t c).get ⟨i, h⟩ =
      (i * c + 1, min ((i + 1) * c) t) := by
  simp [wos_get_download_ranges, List.get_eq_getElem, List.getElem_map,
    List.getElem_range]

theorem wos_ranges_size_le {t c : Nat} (hc : 0 < c) {r : Nat × Nat}
    (hr : r ∈ wos_get_download_ranges t c) :
    r.1 ≤ r.2 ∧ r.2 + 1 - r.1 ≤ c := by
  rcases mem_wos_ranges.mp hr with ⟨i, hi, rfl⟩
  have h1 : i * c < t := (lt_numRanges_iff i hc).mp hi
  have h2 : (i + 1) * c = i * c + c := by rw [Nat.add_mul, one_mul]
  constructor <;> simp <;> omega

theorem wos_ranges_head {t c : Nat} (hc : 0 < c) (ht : t ≠ 0) :
    (wos_get_download_ranges t c).head? = some (1, min c t) := by
  have hk : 0 < numRanges t c := (lt_numRanges_iff 0 hc).mpr (by omega)
  obtain ⟨m, hm⟩ : ∃ m, numRanges t c = m + 1 := ⟨numRanges t c - 1, by omega⟩
  unfold wos_get_download_ranges
  rw [hm, List.range_succ_eq_map]
  simp

theorem wos_ranges_contiguous {t c : Nat} (hc : 0 < c) (i : Nat)
    (h1 : i < (wos_get_download_ranges t c).length)
    (h2 : i + 1 < (wos_get_download_ranges t c).length) :
    ((wos_get_download_ranges t c).get ⟨i + 1, h2⟩).1 =
      ((wos_get_download_ranges t c).get ⟨i, h1⟩).2 + 1 := by
  rw [wos_ranges_getElem, wos_ranges_getElem]
  have hlen := wos_ranges_length t c
  have hlt : (i + 1) * c < t :=
    (lt_numRanges_iff (i + 1) hc).mp (by omega)
  simp
  omega

theorem wos_ranges_cover {t c : Nat} (hc : 0 < c) (n : Nat) :
    (1 ≤ n ∧ n ≤ t) ↔
      ∃ r ∈ wos_get_download_ranges t c, r.1 ≤ n ∧ n ≤ r.2 := by
  constructor
  · rintro ⟨h1, h2⟩
    have hA : (n - 1) / c * c ≤ n - 1 := Nat.div_mul_le_self _ _
    have hB : (n - 1) / c * c + (n - 1) % c = n - 1 := by
      rw [Nat.mul_comm]; exact Nat.div_add_mod _ _
    have hC : (n - 1) % c < c := Nat.mod_lt _ hc
    have hk : (n - 1) / c < numRanges t c :=
      (lt_numRanges_iff _ hc).mpr (by omega)
    refine ⟨((n - 1) / c * c + 1, min (((n - 1) / c + 1) * c) t),
      mem_wos_ranges.mpr ⟨(n - 1) / c, hk, rfl⟩, by omega, ?_⟩
    have hD : ((n - 1) / c + 1) * c = (n - 1) / c * c + c := by
      rw [Nat.add_mul, one_mul]
    simp
    omega
  · rintro ⟨r, hr, ha, hb⟩
    rcases mem_wos_ranges.mp hr with ⟨i, hi, rfl⟩
    have h1 : i * c < t := (lt_numRanges_iff i hc).mp hi
    simp at ha hb
    omega

theorem wos_ranges_empty_iff {t c : Nat} (hc : 0 < c) :
    wos_get_download_ranges t c = [] ↔ t = 0 := by
  rw [← List.length_eq_zero, wos_ranges_length]
  have h0 := lt_numRanges_iff (t := t) 0 hc
  simp only [Nat.zero_mul] at h0
  omega

theorem wos_ranges_last {t c : Nat} (hc : 0 < c) (hnd : ¬ c ∣ t)
    {r : Nat × Nat}
    (hr : (wos_get_download_ranges t c).getLast? = some r) :
    r.2 + 1 - r.1 < c := by
  have ht : t ≠ 0 := by rintro rfl; exact hnd (dvd_zero c)
  have hk : 0 < numRanges t c := (lt_numRanges_iff 0 hc).mpr (by omega)
  obtain ⟨m, hm⟩ : ∃ m, numRanges t c = m + 1 := ⟨numRanges t c - 1, by omega⟩
  unfold wos_get_download_ranges at hr
  rw [hm, List.range_succ, List.map_append] at hr
  simp only [List.map_cons, List.map_nil] at hr
  rw [List.getLast?_concat] at hr
  have hreq : r = (m * c + 1, min ((m + 1) * c) t) := by
    cases hr; rfl
  subst hreq
  have hmt : ¬ ((m + 1) * c < t) := by
    intro h
    have := (lt_numRanges_iff (m + 1) hc).mpr h
    omega
  have hne : t ≠ (m + 1) * c := by
    intro h
    exact hnd (h ▸ dvd_mul_left c (m + 1))
  have hmc : m * c < t := (lt_numRanges_iff m hc).mp (by omega)
  have hadd : (m + 1) * c = m * c + c := by rw [Nat.add_mul, one_mul]
  simp
  omega

/-- C1: for every `total_count ≥ 0` and `capacity > 0`, the Export Range
Planner returns an ordered sequence of contiguous, non-overlapping
`(start, end)` ranges, in ascending order starting at 1, each of size at
most `capacity`, whose union is exactly `[1, total_count]`; the sequence
is empty iff `total_count = 0`; when `capacity` does not divide
`total_count` the final range is shorter than `capacity`; and
`total_count = 250` with `capacity = 100` yields
`[(1, 100), (101, 200), (201, 250)]`. -/
theorem wos_get_download_ranges_correct (total_count capacity : Nat)
    (hc : 0 < capacity) :
    (∀ r ∈ wos_get_download_ranges total_count capacity,
        r.1 ≤ r.2 ∧ r.2 + 1 - r.1 ≤ capacity)
    ∧ (total_count ≠ 0 →
        (wos_get_download_ranges total_count capacity).head? =
          some (1, min capacity total_count))
    ∧ (∀ i (h1 : i < (wos_get_download_ranges total_count capacity).length)
        (h2 : i + 1 < (wos_get_download_ranges total_count capacity).length),
        ((wos_get_download_ranges total_count capacity).get ⟨i + 1, h2⟩).1 =
          ((wos_get_download_ranges total_count capacity).get ⟨i, h1⟩).2 + 1)
    ∧ (∀ n, (1 ≤ n ∧ n ≤ total_count) ↔
        ∃ r ∈ wos_get_download_ranges total_count capacity,
          r.1 ≤ n ∧ n ≤ r.2)
    ∧ (wos_get_download_ranges total_count capacity = [] ↔ total_count = 0)
    ∧ (¬ capacity ∣ total_count → ∀ r,
        (wos_get_download_ranges total_count capacity).getLast? = some r →
          r.2 + 1 - r.1 < capacity)
    ∧ wos_get_download_ranges 250 100 = [(1, 100), (101, 200), (201, 250)] :=
  ⟨fun _ hr => wos_ranges_size_le hc hr,
   fun ht => wos_ranges_head hc ht,
   fun i h1 h2 => wos_ranges_contiguous hc i h1 h2,
   fun n => wos_ranges_cover hc n,
   wos_ranges_empty_iff hc,
   fun hnd _ hr => wos_ranges_last hc hnd hr,
   by rfl⟩

/-- Witness for C1 at `total_count = 250`, `capacity = 100`. -/
theorem wos_get_download_ranges_correct_witness :
    0 < 100 ∧
      wos_get_download_ranges 250 100 = [(1, 100), (101, 200), (201, 250)] :=
  ⟨by decide, (wos_get_download_ranges_correct 250 100 (by decide)).2.2.2.2.2.2⟩

/-- C2: the Export Range Planner is deterministic: two invocations on the
same `(total_count, capacity)` pair produce identical range sequences.
The planner is a pure function of its two arguments with no randomness,
so equal inputs give equal outputs. -/
theorem wos_get_download_ranges_deterministic (t1 c1 t2 c2 : Nat)
    (ht : t1 = t2) (hc : c1 = c2) :
    wos_get_download_ranges t1 c1 = wos_get_download_ranges t2 c2 := by
  rw [ht, hc]

/-- Witness for C2 at `(250, 100)`. -/
theorem wos_get_download_ranges_deterministic_witness :
    wos_get_download_ranges 250 100 = wos_get_download_ranges 250 100 :=
  wos_get_download_ranges_deterministic 250 100 250 100 rfl rfl

/-- Modelled from the spec: one Task Log Record, created per attempted
Export Range: query identity, range bounds, outcome and timestamp. -/
structure TaskLogRecord where
  query : String
  range : Nat × Nat
  success : Bool
  timestamp : Nat
deriving DecidableEq

/-- Modelled from the spec: one log file in the task-log directory,
keyed by its file name. -/
structure LogFile where
  name : String
  records : List TaskLogRecord
deriving DecidableEq

/-- Modelled from the spec: the Task Log Records for a given query are
the records of the log files whose name is the log-file naming prefix
followed by the query string. -/
def recordsFor (directory : List LogFile) (filePre query_content : String) :
    List TaskLogRecord :=
  ((directory.filter (fun f => decide (f.name = filePre ++ query_content))).map
    LogFile.records).flatten

/-- Modelled from the spec: the ranges that have a success record among
the given Task Log Records. -/
def successRanges (records : List TaskLogRecord) : List (Nat × Nat) :=
  (records.filter (fun rec => rec.success)).map TaskLogRecord.range

/-- Modelled from the spec: `aggregate_failed_records` reads all Task
Log Records for a given query (files matched by a naming prefix plus the
query string) and returns the planned Export Ranges that have no
corresponding success record — the complement of the completed set
against the full planned sequence.  The implementation is missing from
the snapshot (only imported by `demo.ipynb`); the planned range sequence
is an explicit argument here. -/
def aggregate_failed_records (directory : List LogFile)
    (query_content filePre : String) (plan : List (Nat × Nat)) :
    List (Nat × Nat) :=
  plan.filter
    (fun r =>
      decide (r ∉ successRanges (recordsFor directory filePre query_content)))

theorem mem_successRanges {records : List TaskLogRecord} {rg : Nat × Nat} :
    rg ∈ successRanges records ↔
      ∃ rec ∈ records, rec.success = true ∧ rec.range = rg := by
  simp [successRanges, List.mem_map, List.mem_filter, and_assoc]

theorem mem_recordsFor {d : List LogFile} {fp q : String}
    {rec : TaskLogRecord} :
    rec ∈ recordsFor d fp q ↔
      ∃ f ∈ d, f.name = fp ++ q ∧ rec ∈ f.records := by
  simp only [recordsFor, List.mem_flatten, List.mem_map, List.mem_filter,
    decide_eq_true_iff]
  constructor
  · rintro ⟨l, ⟨f, ⟨hfd, hfn⟩, hfl⟩, hrl⟩
    exact ⟨f, hfd, hfn, hfl ▸ hrl⟩
  · rintro ⟨f, hfd, hfn, hrf⟩
    exact ⟨f.records, ⟨f, ⟨hfd, hfn⟩, rfl⟩, hrf⟩

theorem mem_aggregate_failed_records {directory : List LogFile}
    {q fp : String} {plan : List (Nat × Nat)} {rg : Nat × Nat} :
    rg ∈ aggregate_failed_records directory q fp plan ↔
      rg ∈ plan ∧
        ¬ ∃ rec ∈ recordsFor directory fp q,
            rec.success = true ∧ rec.range = rg := by
  simp only [aggregate_failed_records, List.mem_filter, decide_eq_true_iff,
    mem_successRanges]

/-- Concrete task-log file realising the spec example: of the plan for
250 records in batches of 100, the range `(101, 200)` failed and the
other two ranges succeeded. -/
def demoFile : LogFile :=
  { name := "task_details_SO=(WATER RESEARCH)",
    records :=
      [{ query := "SO=(WATER RESEARCH)", range := (1, 100),
         success := true, timestamp := 0 },
       { query := "SO=(WATER RESEARCH)", range := (101, 200),
         success := false, timestamp := 1 },
       { query := "SO=(WATER RESEARCH)", range := (201, 250),
         success := true, timestamp := 2 }] }

/-- Concrete task-log directory holding just `demoFile`. -/
def demoDirectory : List LogFile := [demoFile]

/-- C3: for every planned range sequence and every task-log directory,
the Failure Aggregator returns exactly the planned ranges with no
corresponding success record among the records matched by log-file
naming prefix plus query string — the complement of the completed set
against the plan — with no duplicates; and on the spec example (range
`(101, 200)` failed, the rest of the 250-record plan succeeded) it
returns exactly `[(101, 200)]`. -/
theorem aggregate_failed_records_correct (directory : List LogFile)
    (query_content filePre : String) (plan : List (Nat × Nat))
    (hnd : plan.Nodup) :
    (∀ rg, rg ∈ aggregate_failed_records directory query_content filePre plan ↔
        rg ∈ plan ∧
          ¬ ∃ rec ∈ recordsFor directory filePre query_content,
              rec.success = true ∧ rec.range = rg)
    ∧ (aggregate_failed_records directory query_content filePre plan).Nodup
    ∧ aggregate_failed_records demoDirectory "SO=(WATER RESEARCH)"
        "task_details_" (wos_get_download_ranges 250 100) = [(101, 200)] :=
  ⟨fun _ => mem_aggregate_failed_records,
   List.Nodup.filter _ hnd,
   by rfl⟩

/-- Witness for C3 at the spec example. -/
theorem aggregate_failed_records_correct_witness :
    (wos_get_download_ranges 250 100).Nodup ∧
      aggregate_failed_records demoDirectory "SO=(WATER RESEARCH)"
        "task_details_" (wos_get_download_ranges 250 100) = [(101, 200)] :=
  ⟨by decide,
   (aggregate_failed_records_correct demoDirectory "SO=(WATER RESEARCH)"
      "task_details_" (wos_get_download_ranges 250 100) (by decide)).2.2⟩

/-- Modelled from the spec: `save_log` persists one Task Log Record by
appending it at the end of the log file named `fname`, creating that
file when it does not exist; no existing record is rewritten or removed.
The implementation is missing from the snapshot (only imported by
`demo.ipynb`). -/
def save_log (directory : List LogFile) (fname : String)
    (rec : TaskLogRecord) : List LogFile :=
  match directory with
  | [] => [{ name := fname, records := [rec] }]
  | f :: rest =>
    if f.name = fname then
      { f with records := f.records ++ [rec] } :: rest
    else
      f :: save_log rest fname rec

/-- Total number of records held in a log directory; used as a monotone
stand-in for the wall-clock timestamp of a record. -/
def totalRecords (directory : List LogFile) : Nat :=
  (directory.map (fun f => f.records.length)).sum

/-- Modelled from the spec: `wos_download_contractor` walks the planned
Export Ranges from the 1-based starting index onwards; for each range
the export either succeeds or times out (the expected file appears in
the download directory within the wait bound or not — modelled by the
oracle `ok`), a Task Log Record carrying that outcome is appended via
`save_log`, and the orchestrator proceeds to the next range either way.
The implementation is missing from the snapshot; the browser UI actions
are abstracted away and only the task-log effect is modelled. -/
def wos_download_contractor (ok : Nat × Nat → Bool)
    (query_content filePre : String) (start : Nat)
    (plan : List (Nat × Nat)) (directory : List LogFile) : List LogFile :=
  (plan.drop (start - 1)).foldl
    (fun d rg =>
      save_log d (filePre ++ query_content)
        { query := query_content, range := rg, success := ok rg,
          timestamp := totalRecords d }) directory

/-- A log directory `new` extends `old` when every file of `old` is
still present under the same name with its original records unchanged,
possibly followed by newly appended ones. -/
def logExtends (old new : List LogFile) : Prop :=
  ∀ f ∈ old, ∃ g ∈ new, g.name = f.name ∧ ∃ t2, g.records = f.records ++ t2

theorem logExtends_refl (d : List LogFile) : logExtends d d :=
  fun f hf => ⟨f, hf, rfl, [], by simp⟩

theorem logExtends_trans {a b c : List LogFile}
    (h1 : logExtends a b) (h2 : logExtends b c) : logExtends a c := by
  intro f hf
  obtain ⟨g, hg, hgn, t2, hgr⟩ := h1 f hf
  obtain ⟨k, hk, hkn, t3, hkr⟩ := h2 g hg
  exact ⟨k, hk, hkn.trans hgn, t2 ++ t3, by rw [hkr, hgr, List.append_assoc]⟩

theorem save_log_logExtends (d : List LogFile) (fname : String)
    (rec : TaskLogRecord) : logExtends d (save_log d fname rec) := by
  induction d with
  | nil => intro f hf; cases hf
  | cons f0 rest ih =>
    intro f hf
    simp only [save_log]
    by_cases h : f0.name = fname
    · rw [if_pos h]
      rcases List.mem_cons.mp hf with rfl | hf2
      · exact ⟨_, List.mem_cons_self _ _, rfl, [rec], rfl⟩
      · exact ⟨_, List.mem_cons_of_mem _ hf2, rfl, [], by simp⟩
    · rw [if_neg h]
      rcases List.mem_cons.mp hf with rfl | hf2
      · exact ⟨_, List.mem_cons_self _ _, rfl, [], by simp⟩
      · obtain ⟨g, hg, hgn, t2, hgr⟩ := ih f hf2
        exact ⟨g, List.mem_cons_of_mem _ hg, hgn, t2, hgr⟩

theorem recordsFor_mono {d d2 : List LogFile} {fp q : String}
    (hext : logExtends d d2) {rec : TaskLogRecord}
    (hrec : rec ∈ recordsFor d fp q) : rec ∈ recordsFor d2 fp q := by
  rcases mem_recordsFor.mp hrec with ⟨f, hf, hfn, hrf⟩
  obtain ⟨g, hg, hgn, t2, hgr⟩ := hext f hf
  exact mem_recordsFor.mpr ⟨g, hg, hgn.trans hfn,
    by rw [hgr]; exact List.mem_append_left _ hrf⟩

theorem self_mem_recordsFor_save_log (d : List LogFile) (fp q : String)
    (rec : TaskLogRecord) :
    rec ∈ recordsFor (save_log d (fp ++ q) rec) fp q := by
  induction d with
  | nil =>
    have h1 : save_log [] (fp ++ q) rec =
        [{ name := fp ++ q, records := [rec] }] := rfl
    rw [h1]
    exact mem_recordsFor.mpr ⟨_, List.mem_cons_self _ _, rfl, by simp⟩
  | cons f0 rest ih =>
    simp only [save_log]
    by_cases h : f0.name = fp ++ q
    · rw [if_pos h]
      exact mem_recordsFor.mpr ⟨_, List.mem_cons_self _ _, h, by simp⟩
    · rw [if_neg h]
      rcases mem_recordsFor.mp ih with ⟨g, hg, hgn, hrg⟩
      exact mem_recordsFor.mpr ⟨g, List.mem_cons_of_mem _ hg, hgn, hrg⟩

theorem contractor_fold_logExtends (ok : Nat × Nat → Bool)
    (q fp : String) (rs : List (Nat × Nat)) (d : List LogFile) :
    logExtends d
      (rs.foldl
        (fun d2 rg =>
          save_log d2 (fp ++ q)
            { query := q, range := rg, success := ok rg,
              timestamp := totalRecords d2 }) d) := by
  induction rs generalizing d with
  | nil => exact logExtends_refl d
  | cons rg rest ih =>
    rw [List.foldl_cons]
    exact logExtends_trans (save_log_logExtends d _ _) (ih _)

theorem contractor_fold_complete (ok : Nat × Nat → Bool)
    (q fp : String) (rs : List (Nat × Nat)) (d : List LogFile)
    {rg : Nat × Nat} (hrg : rg ∈ rs) :
    ∃ rec ∈ recordsFor
        (rs.foldl
          (fun d2 rg2 =>
            save_log d2 (fp ++ q)
              { query := q, range := rg2, success := ok rg2,
                timestamp := totalRecords d2 }) d) fp q,
      rec.query = q ∧ rec.range = rg ∧ rec.success = ok rg := by
  induction rs generalizing d with
  | nil => cases hrg
  | cons rg0 rest ih =>
    rw [List.foldl_cons]
    rcases List.mem_cons.mp hrg with rfl | h2
    · exact ⟨_, recordsFor_mono (contractor_fold_logExtends ok q fp rest _)
        (self_mem_recordsFor_save_log d fp q _), rfl, rfl, rfl⟩
    · exact ih _ h2

/-- C4: for every planned range from the starting index onwards, the
orchestrator appends a Task Log Record whose outcome reflects that
range's export result — in particular a failed record when the expected
file never appears — and a per-range failure never aborts the run: the
conclusion holds for every attempted range whatever the outcome oracle
says about the earlier ranges, so every subsequent planned range is
still attempted and logged. -/
theorem wos_download_contractor_attempts_all (ok : Nat × Nat → Bool)
    (query_content filePre : String) (start : Nat)
    (plan : List (Nat × Nat)) (directory : List LogFile)
    (rg : Nat × Nat) (hrg : rg ∈ plan.drop (start - 1)) :
    ∃ rec ∈ recordsFor
        (wos_download_contractor ok query_content filePre start plan directory)
        filePre query_content,
      rec.query = query_content ∧ rec.range = rg ∧ rec.success = ok rg :=
  contractor_fold_complete ok query_content filePre
    (plan.drop (start - 1)) directory hrg

/-- Witness for C4: with the 250-record plan, a run in which the export
of `(101, 200)` fails still attempts and logs the later range
`(201, 250)`. -/
theorem wos_download_contractor_attempts_all_witness :
    ∃ rec ∈ recordsFor
        (wos_download_contractor (fun r => decide (r ≠ (101, 200)))
          "SO=(WATER RESEARCH)" "task_details_" 1
          (wos_get_download_ranges 250 100) [])
        "task_details_" "SO=(WATER RESEARCH)",
      rec.query = "SO=(WATER RESEARCH)" ∧ rec.range = (201, 250) ∧
        rec.success = (fun r => decide (r ≠ ((101 : Nat), (200 : Nat)))) (201, 250) :=
  wos_download_contractor_attempts_all (fun r => decide (r ≠ (101, 200)))
    "SO=(WATER RESEARCH)" "task_details_" 1
    (wos_get_download_ranges 250 100) [] (201, 250) (by decide)

/-- C5: the task log is append-only: `save_log` and a whole orchestrator
run only append Task Log Records, so every log file present before is
still present afterwards under the same name with its original records
unchanged as a prefix of the new contents.  The Failure Aggregator is a
pure read (`aggregate_failed_records` returns a range list and does not
produce a directory), so it mutates nothing. -/
theorem task_log_append_only (directory : List LogFile) (fname : String)
    (rec : TaskLogRecord) (ok : Nat × Nat → Bool)
    (query_content filePre : String) (start : Nat)
    (plan : List (Nat × Nat)) (f : LogFile) (hf : f ∈ directory) :
    (∃ g ∈ save_log directory fname rec,
        g.name = f.name ∧ ∃ t2, g.records = f.records ++ t2)
    ∧ (∃ g ∈ wos_download_contractor ok query_content filePre start plan
          directory,
        g.name = f.name ∧ ∃ t2, g.records = f.records ++ t2) :=
  ⟨save_log_logExtends directory fname rec f hf,
   contractor_fold_logExtends ok query_content filePre
     (plan.drop (start - 1)) directory f hf⟩

/-- Witness for C5 at the concrete demo directory. -/
theorem task_log_append_only_witness :
    (∃ g ∈ save_log demoDirectory "task_details_SO=(WATER RESEARCH)"
        { query := "SO=(WATER RESEARCH)", range := (101, 200),
          success := true, timestamp := 3 },
      g.name = demoFile.name ∧ ∃ t2, g.records = demoFile.records ++ t2)
    ∧ (∃ g ∈ wos_download_contractor (fun _ => true) "SO=(WATER RESEARCH)"
          "task_details_" 1 (wos_get_download_ranges 250 100) demoDirectory,
        g.name = demoFile.name ∧ ∃ t2, g.records = demoFile.records ++ t2) :=
  task_log_append_only demoDirectory "task_details_SO=(WATER RESEARCH)"
    { query := "SO=(WATER RESEARCH)", range := (101, 200),
      success := true, timestamp := 3 }
    (fun _ => true) "SO=(WATER RESEARCH)" "task_details_" 1
    (wos_get_download_ranges 250 100) demoFile (List.mem_cons_self _ _)

/-- Modelled from the spec: the relevant file-system state for path
validation — the set of existing directories and the set of existing
non-directory entries. -/
structure FS where
  dirs : List String
  files : List String
deriving DecidableEq

/-- Modelled from the spec and the notebook comments:
`validate_and_create_path` rejects an invalid path (empty, or an
existing non-directory entry), accepts an existing directory, and
creates the directory when the path does not exist yet ("you may also
point at a folder that does not exist; the code creates it for you").
The implementation is missing from the snapshot (only imported by
`demo.ipynb`). -/
def validate_and_create_path (fs : FS) (p : String) : Option FS :=
  if p = "" then none
  else if p ∈ fs.files then none
  else if p ∈ fs.dirs then some fs
  else some { fs with dirs := fs.dirs ++ [p] }

/-- Validation of a list of configured paths, in order, stopping at the
first failure; mirrors the three successive validation calls of the
demo notebook. -/
def validateAll (fs : FS) (ps : List String) : Option FS :=
  match ps with
  | [] => some fs
  | p :: rest =>
    match validate_and_create_path fs p with
    | none => none
    | some fs2 => validateAll fs2 rest

/-- Observable outcome of one demo run: whether a browser session was
created and which UI actions were performed. -/
structure RunTrace where
  sessionCreated : Bool
  uiActions : List String
deriving DecidableEq

/-- Modelled from the spec: the demo notebook's run sequence — validate
the user-data, download and task-log paths first, and only when all
three validations succeed create the browser session and drive the UI
(captcha gate, tab switch, language switch, advanced search, export).
On a validation failure the run fails fast before any automation. -/
def run_demo (fs : FS)
    (user_data_path wos_download_path download_task_log_path : String) :
    RunTrace :=
  match validateAll fs
      [user_data_path, wos_download_path, download_task_log_path] with
  | none => { sessionCreated := false, uiActions := [] }
  | some _ =>
    { sessionCreated := true,
      uiActions := ["login_to_channel", "goto_wos_captcha",
        "switch_tab_by_domain", "wos_switch_english",
        "wos_goto_advanced_search", "wos_advanced_search",
        "wos_download_contractor"] }

/-- C6: if validation of any configured path fails (the path is missing
in the sense of invalid — empty or an existing non-directory — so that
`validateAll` rejects the triple), the run fails fast before any browser
automation: no session is created and no UI action is performed. -/
theorem validate_fail_fast (fs : FS)
    (user_data_path wos_download_path download_task_log_path : String)
    (hfail : validateAll fs
      [user_data_path, wos_download_path, download_task_log_path] = none) :
    (run_demo fs user_data_path wos_download_path
        download_task_log_path).sessionCreated = false
    ∧ (run_demo fs user_data_path wos_download_path
        download_task_log_path).uiActions = [] := by
  rw [run_demo, hfail]
  exact ⟨rfl, rfl⟩

/-- Witness for C6: an empty user-data path is rejected and the run
performs nothing. -/
theorem validate_fail_fast_witness :
    (run_demo { dirs := [], files := [] } "" "/d" "/l").sessionCreated = false
    ∧ (run_demo { dirs := [], files := [] } "" "/d" "/l").uiActions = [] :=
  validate_fail_fast { dirs := [], files := [] } "" "/d" "/l" (by decide)

/-- C10: `validate_and_create_path` accepts a path that does not exist
yet and creates the directory instead of rejecting it: for any valid
path (non-empty and not an existing non-directory entry) the call
succeeds and afterwards the path exists as a directory; in particular a
nonexistent path is added to the directory set, so a nonexistent (as
opposed to invalid) configured path does not abort the run. -/
theorem validate_and_create_path_creates (fs : FS) (p : String)
    (hp : p ≠ "") (hf : p ∉ fs.files) :
    (∃ fs2, validate_and_create_path fs p = some fs2 ∧ p ∈ fs2.dirs)
    ∧ (p ∉ fs.dirs →
        validate_and_create_path fs p =
          some { fs with dirs := fs.dirs ++ [p] }) := by
  constructor
  · rw [validate_and_create_path, if_neg hp, if_neg hf]
    by_cases hd : p ∈ fs.dirs
    · exact ⟨fs, by rw [if_pos hd], hd⟩
    · exact ⟨{ fs with dirs := fs.dirs ++ [p] }, by rw [if_neg hd], by simp⟩
  · intro hd
    rw [validate_and_create_path, if_neg hp, if_neg hf, if_neg hd]

/-- Witness for C10: a nonexistent absolute path is created. -/
theorem validate_and_create_path_creates_witness :
    (∃ fs2, validate_and_create_path { dirs := [], files := [] } "/data" =
        some fs2 ∧ "/data" ∈ fs2.dirs)
    ∧ ("/data" ∉ FS.dirs { dirs := [], files := [] } →
        validate_and_create_path { dirs := [], files := [] } "/data" =
          some { dirs := [] ++ ["/data"], files := [] }) :=
  validate_and_create_path_creates { dirs := [], files := [] } "/data"
    (by decide) (by decide)

/-- Whether `needle` occurs as a contiguous run inside `hay`. -/
def listContains (needle : List Char) : List Char → Bool
  | [] => needle.isEmpty
  | c :: t => needle.isPrefixOf (c :: t) || listContains needle t

/-- Modelled from the spec: a downloaded file (name and content) matches
the journal identity when the journal name occurs in its file name or in
its content. -/
def matchesJournal (journal_name : String) (f : String × String) : Bool :=
  listContains journal_name.toList f.1.toList ||
    listContains journal_name.toList f.2.toList

/-- Modelled from the spec: the state seen by the file relocation helper
— the citation files (name, content) in the download directory and in
the target archive directory. -/
structure MoveFS where
  source : List (String × String)
  target : List (String × String)
deriving DecidableEq

/-- Modelled from the spec: `find_and_move_files` moves exactly the
files of the download directory that match the journal identity into
the target archive location and leaves every other file where it was,
unchanged.  The implementation is missing from the snapshot (only
imported by `demo.ipynb`). -/
def find_and_move_files (fs : MoveFS) (journal_name : String) : MoveFS :=
  { source := fs.source.filter (fun f => !(matchesJournal journal_name f)),
    target := fs.target ++ fs.source.filter (matchesJournal journal_name) }

/-- C7: calling the relocation helper with `journal_name =
"Water Research"` moves only the download-directory files matching that
journal identity: every non-matching file stays in the download
directory with the same name and content, every matching file lands in
the target archive, and every file found in the target afterwards was
either already there or matches the journal identity. -/
theorem find_and_move_files_frame (fs : MoveFS) (f : String × String)
    (hf : f ∈ fs.source) :
    (matchesJournal "Water Research" f = false →
        f ∈ (find_and_move_files fs "Water Research").source)
    ∧ (matchesJournal "Water Research" f = true →
        f ∈ (find_and_move_files fs "Water Research").target ∧
          f ∉ (find_and_move_files fs "Water Research").source)
    ∧ (∀ g ∈ (find_and_move_files fs "Water Research").target,
        g ∈ fs.target ∨ matchesJournal "Water Research" g = true) := by
  refine ⟨?_, ?_, ?_⟩
  · intro hm
    simp only [find_and_move_files, List.mem_filter]
    exact ⟨hf, by rw [hm]; rfl⟩
  · intro hm
    constructor
    · simp only [find_and_move_files]
      exact List.mem_append_right _ (List.mem_filter.mpr ⟨hf, hm⟩)
    · simp only [find_and_move_files, List.mem_filter]
      rintro ⟨-, hb⟩
      rw [hm] at hb
      cases hb
  · intro g hg
    simp only [find_and_move_files] at hg
    rcases List.mem_append.mp hg with hg | hg
    · exact Or.inl hg
    · exact Or.inr (List.mem_filter.mp hg).2

/-- Witness for C7: with one matching and one unrelated file in the
download directory, the unrelated file is untouched. -/
theorem find_and_move_files_frame_witness :
    (matchesJournal "Water Research"
        ("notes.txt", "shopping list") = false →
      ("notes.txt", "shopping list") ∈
        (find_and_move_files
          { source := [("savedrecs_Water Research_1.txt", "WATER RESEARCH"),
              ("notes.txt", "shopping list")],
            target := [] } "Water Research").source)
    ∧ (matchesJournal "Water Research"
        ("notes.txt", "shopping list") = true →
      ("notes.txt", "shopping list") ∈
        (find_and_move_files
          { source := [("savedrecs_Water Research_1.txt", "WATER RESEARCH"),
              ("notes.txt", "shopping list")],
            target := [] } "Water Research").target ∧
        ("notes.txt", "shopping list") ∉
          (find_and_move_files
            { source := [("savedrecs_Water Research_1.txt", "WATER RESEARCH"),
                ("notes.txt", "shopping list")],
              target := [] } "Water Research").source)
    ∧ (∀ g ∈ (find_and_move_files
          { source := [("savedrecs_Water Research_1.txt", "WATER RESEARCH"),
              ("notes.txt", "shopping list")],
            target := [] } "Water Research").target,
        g ∈ MoveFS.target
            { source := [("savedrecs_Water Research_1.txt", "WATER RESEARCH"),
                ("notes.txt", "shopping list")],
              target := [] } ∨
          matchesJournal "Water Research" g = true) :=
  find_and_move_files_frame
    { source := [("savedrecs_Water Research_1.txt", "WATER RESEARCH"),
        ("notes.txt", "shopping list")],
      target := [] }
    ("notes.txt", "shopping list") (by decide)

/-- Modelled from the spec: the environment of a login attempt — whether
a browser profile with restorable authenticated state is present and
still valid, and whether the login UI elements show up within the
timeout. -/
structure LoginEnv where
  profilePresent : Bool
  profileValid : Bool
  loginUiFound : Bool
deriving DecidableEq

/-- Modelled from the spec: a live browser-session handle. -/
structure BrowserSession where
  authenticated : Bool
  user : String
deriving DecidableEq

/-- Modelled from the spec: `login_to_channel` reuses an existing
authenticated profile when present and still valid, otherwise performs
one fresh login through the institutional channel; when the login UI
elements are not found within the timeout it fails with a navigation
error and performs no automatic retry.  The second component counts the
fresh login attempts made (0 on profile reuse, never more than 1: no
retry).  The implementation is missing from the snapshot (only imported
by `demo.ipynb`). -/
def login_to_channel (env : LoginEnv) (username password : String) :
    Except String BrowserSession × Nat :=
  if env.profilePresent && env.profileValid then
    (Except.ok { authenticated := true, user := username }, 0)
  else if env.loginUiFound then
    (Except.ok { authenticated := true, user := username }, 1)
  else
    (Except.error "navigation error: login UI elements not found", 1)

/-- C8: the session manager reuses a present-and-valid authenticated
profile without a fresh login, performs exactly one fresh login through
the institutional channel otherwise, returning a live session handle on
success; and when the login UI elements are not found within the
timeout it fails with a navigation error after at most one attempt — no
automatic retry. -/
theorem login_to_channel_spec (env : LoginEnv) (username password : String) :
    ((env.profilePresent && env.profileValid) = true →
        login_to_channel env username password =
          (Except.ok { authenticated := true, user := username }, 0))
    ∧ ((env.profilePresent && env.profileValid) = false →
        env.loginUiFound = true →
        login_to_channel env username password =
          (Except.ok { authenticated := true, user := username }, 1))
    ∧ ((env.profilePresent && env.profileValid) = false →
        env.loginUiFound = false →
        (login_to_channel env username password).1 =
            Except.error "navigation error: login UI elements not found" ∧
          (login_to_channel env username password).2 ≤ 1) := by
  refine ⟨?_, ?_, ?_⟩
  · intro h
    rw [login_to_channel, if_pos h]
  · intro h h2
    rw [login_to_channel, if_neg (by rw [h]; exact Bool.false_ne_true),
      if_pos h2]
  · intro h h2
    rw [login_to_channel, if_neg (by rw [h]; exact Bool.false_ne_true),
      if_neg (by rw [h2]; exact Bool.false_ne_true)]
    exact ⟨rfl, Nat.le_refl 1⟩

/-- Witness for C8: with no usable profile and the login UI never
appearing, the call fails with a navigation error after one attempt. -/
theorem login_to_channel_spec_witness :
    (login_to_channel
        { profilePresent := false, profileValid := false,
          loginUiFound := false } "u" "p").1 =
        Except.error "navigation error: login UI elements not found" ∧
      (login_to_channel
        { profilePresent := false, profileValid := false,
          loginUiFound := false } "u" "p").2 ≤ 1 :=
  (login_to_channel_spec
    { profilePresent := false, profileValid := false, loginUiFound := false }
    "u" "p").2.2 rfl rfl

/-- Modelled from the notebook comment ("only supports journal-name
extraction of the `SO=(Journal of Hazardous Materials)` form"): the
core extractor on character lists accepts exactly the strings shaped
`SO=(<journal name>)` — the four-character head `SO=(` and a closing
`)` — and returns the enclosed journal name; every other shape yields
`none`.  The `extract_content` implementation is missing from the
snapshot (only imported by `demo.ipynb`). -/
def extract_core (cs : List Char) : Option (List Char) :=
  if cs.take 4 = ['S', 'O', '=', '('] ∧ cs.getLast? = some ')' ∧ 5 ≤ cs.length
  then some ((cs.drop 4).dropLast) else none

/-- Modelled from the notebook comment: `extract_content` extracts the
journal name from a query of the exact form `SO=(<journal name>)` and
is undefined (`none`) on any other query shape. -/
def extract_content (s : String) : Option String :=
  (extract_core s.data).map String.mk

theorem extract_core_complete (J : List Char) :
    extract_core (['S', 'O', '=', '('] ++ (J ++ [')'])) = some J := by
  have h4 : (4 : Nat) ≤ (['S', 'O', '=', '('] : List Char).length := by decide
  rw [extract_core, if_pos]
  · rw [List.drop_append_of_le_length h4]
    simp [List.dropLast_concat]
  · refine ⟨?_, ?_, ?_⟩
    · rw [List.take_append_of_le_length h4]
      rfl
    · rw [← List.append_assoc]
      exact List.getLast?_concat _
    · simp [List.length_append]

theorem extract_core_sound {cs l : List Char} (h : extract_core cs = some l) :
    cs = ['S', 'O', '=', '('] ++ (l ++ [')']) := by
  rw [extract_core] at h
  by_cases hc : cs.take 4 = ['S', 'O', '=', '('] ∧ cs.getLast? = some ')' ∧
      5 ≤ cs.length
  · rw [if_pos hc] at h
    obtain ⟨h1, h2, h3⟩ := hc
    obtain ⟨ys, rfl⟩ := List.getLast?_eq_some_iff.mp h2
    have hy : 4 ≤ ys.length := by
      rw [List.length_append] at h3
      simp at h3
      omega
    have hl : l = ys.drop 4 := by
      have h5 := Option.some.inj h
      rw [List.drop_append_of_le_length hy, List.dropLast_concat] at h5
      exact h5.symm
    have htake : ys.take 4 = ['S', 'O', '=', '('] := by
      rw [List.take_append_of_le_length hy] at h1
      exact h1
    subst hl
    calc ys ++ [')'] = (ys.take 4 ++ ys.drop 4) ++ [')'] := by
          rw [List.take_append_drop]
      _ = ['S', 'O', '=', '('] ++ (ys.drop 4 ++ [')']) := by
          rw [htake, List.append_assoc]
  · rw [if_neg hc] at h
    cases h

/-- C9: `extract_content` only supports journal-name extraction from
queries of the exact form `SO=(<journal name>)`: for every journal name
`J` it maps `"SO=(" ++ J ++ ")"` to `J` (in particular
`SO=(WATER RESEARCH)` to `WATER RESEARCH`), and any input on which it
produces a result is of that exact form, so queries not of this form
are unsupported. -/
theorem extract_content_correct (J : String) :
    extract_content ("SO=(" ++ J ++ ")") = some J
    ∧ (∀ s r, extract_content s = some r → s = "SO=(" ++ r ++ ")")
    ∧ extract_content "SO=(WATER RESEARCH)" = some "WATER RESEARCH" := by
  refine ⟨?_, ?_, by rfl⟩
  · have hdata : ("SO=(" ++ J ++ ")").data =
        ['S', 'O', '=', '('] ++ (J.data ++ [')']) := by
      rw [String.data_append, String.data_append]
      simp
    simp only [extract_content]
    rw [hdata, extract_core_complete]
    rfl
  · intro s r h
    simp only [extract_content] at h
    rcases hec : extract_core s.data with _ | l
    · rw [hec] at h
      cases h
    · rw [hec] at h
      have hr : String.mk l = r := Option.some.inj h
      have hcs := extract_core_sound hec
      have hd : s.data = ("SO=(" ++ r ++ ")").data := by
        rw [String.data_append, String.data_append, ← hr, hcs]
        simp
      exact congrArg String.mk hd

/-- Witness for C9 at `J = "WATER RESEARCH"`. -/
theorem extract_content_correct_witness :
    extract_content ("SO=(" ++ "WATER RESEARCH" ++ ")") = some "WATER RESEARCH"
    ∧ extract_content "SO=(WATER RESEARCH)" = some "WATER RESEARCH"
    ∧ "SO=(WATER RESEARCH)" = "SO=(" ++ "WATER RESEARCH" ++ ")" :=
  ⟨(extract_content_correct "WATER RESEARCH").1,
   (extract_content_correct "WATER RESEARCH").2.2,
   (extract_content_correct "WATER RESEARCH").2.1 "SO=(WATER RESEARCH)"
     "WATER RESEARCH" ((extract_content_correct "WATER RESEARCH").2.2)⟩

end Bricklayer
